import Mathlib

/-!
Verification of the loan scheduler and status engine of the
ola-s-friendly-hello repository.

The computational core lives inline in React components:
* `LoanForm.tsx` `onSubmit` — interest computation and installment
  schedule generation (`new Date(firstDueDate); setMonth(getMonth()+i)`;
  `parseFloat((total/count).toFixed(2))`);
* `LoansList.tsx` `getLoanStatus` / `getClientStatus` — status
  classification comparing `new Date(due_date) < new Date()`;
* `unnamed/part_005` `getLoanStatus` — the start-of-day normalized
  variant (`today.setHours(0,0,0,0)`; `new Date(due_date + "T00:00:00")`);
* `OverdueAlert.tsx` — per-client aggregation of overdue installments;
* the SQL migration — column default `paid BOOLEAN NOT NULL DEFAULT false`,
  `paid_at` nullable (defaults to null).

Conventions of the embedding:
* money is modelled with `ℚ`; `parseFloat(x.toFixed(2))` becomes rounding
  of `100*q` to the nearest integer (`round2`);
* calendar dates are civil-day numbers (`Int`), produced by
  `daysFromCivil`, a floor-division Gregorian day count identical in
  behaviour to the ECMAScript `MakeDay` normalization (a day value that
  overflows its month rolls into the following months, exactly like
  `Date.setMonth`); `/` and `%` on `Int` are Euclidean, i.e. floor
  semantics at the positive divisors used here;
* timestamps are minutes (`Int`) with a timezone offset `tz` in minutes
  east of UTC, so `new Date(s + "T00:00:00")` for a date-only string `s`
  of day `d` is local midnight `d * 1440 - tz`, a date-only `new Date(s)`
  is UTC midnight `d * 1440`, and `setHours(0,0,0,0)` floors a timestamp
  to the preceding local midnight;
* `dueDate.toISOString().split("T")[0]` is taken to preserve the civil
  date (true in the application's locale, whose UTC offset is ≤ 0).
-/

/-- JS `parseFloat(q.toFixed(2))` on `ℚ`: round to the nearest multiple
of 1/100. -/
def round2 (q : ℚ) : ℚ := (round (100 * q) : ℚ) / 100

/-- Gregorian civil-day number of year `y`, month `m` (1–12), day `d`.
`d` may lie outside the month; the value is start-of-month plus `d - 1`
days, which is exactly the ECMAScript `MakeDay` day-overflow
normalization used by `Date.setMonth`. -/
def daysFromCivil (y m d : Int) : Int :=
  let y2 := if m ≤ 2 then y - 1 else y
  let era := y2 / 400
  let yoe := y2 - era * 400
  let mp := if m ≤ 2 then m + 9 else m - 3
  let doy := (153 * mp + 2) / 5 + d - 1
  let doe := yoe * 365 + yoe / 4 - yoe / 100 + doy
  era * 146097 + doe - 719468

/-- Civil-day number of the first day of absolute month `M`
(year `M / 12`, month-of-year `M % 12 + 1`). -/
def monthStart (M : Int) : Int :=
  daysFromCivil (M / 12) (M % 12 + 1) 1

/-- `const dueDate = new Date(firstDueDate); dueDate.setMonth(dueDate.getMonth() + i)`
(LoanForm.tsx `onSubmit`): keep the day-of-month value, add `i` months,
and let the ECMAScript date normalization roll an overflowing day into
the following month. `m` is 1-based. -/
def jsSetMonthAdd (y m d : Int) (i : Nat) : Int :=
  let M := 12 * y + (m - 1) + (i : Int)
  daysFromCivil (M / 12) (M % 12 + 1) d

theorem daysFromCivil_day_shift (y m d : Int) :
    daysFromCivil y m d = daysFromCivil y m 1 + (d - 1) := by
  simp only [daysFromCivil]
  split_ifs <;> ring

theorem jsSetMonthAdd_eq_monthStart (y m d : Int) (i : Nat) :
    jsSetMonthAdd y m d i = monthStart (12 * y + (m - 1) + (i : Int)) + (d - 1) := by
  simp only [jsSetMonthAdd, monthStart]
  exact daysFromCivil_day_shift _ _ d

theorem monthStart_step_aux (q r : Int) (h0 : 0 ≤ r) (h1 : r < 12) :
    monthStart (12 * q + r) + 28 ≤ monthStart (12 * q + r + 1) := by
  interval_cases r <;>
    (simp only [monthStart, daysFromCivil]; split_ifs <;> omega)

theorem monthStart_step (M : Int) : monthStart M + 28 ≤ monthStart (M + 1) := by
  have h := monthStart_step_aux (M / 12) (M % 12) (by omega) (by omega)
  have hM : 12 * (M / 12) + M % 12 = M := by omega
  rw [hM] at h
  exact h

theorem monthStart_mono : ∀ {M N : Int}, M ≤ N → monthStart M ≤ monthStart N := by
  intro M N h
  have key : ∀ k : Nat, monthStart M ≤ monthStart (M + (k : Int)) := by
    intro k
    induction k with
    | zero => simp
    | succ n ih =>
        have h2 := monthStart_step (M + (n : Int))
        have h3 : M + ((n + 1 : Nat) : Int) = M + (n : Int) + 1 := by push_cast; ring
        rw [h3]
        omega
  have hk : N = M + (((N - M).toNat : Nat) : Int) := by omega
  rw [hk]
  exact key _

theorem jsSetMonthAdd_mono (y m d : Int) {i j : Nat} (h : i ≤ j) :
    jsSetMonthAdd y m d i ≤ jsSetMonthAdd y m d j := by
  rw [jsSetMonthAdd_eq_monthStart, jsSetMonthAdd_eq_monthStart]
  have hij : (12 * y + (m - 1) + (i : Int)) ≤ 12 * y + (m - 1) + (j : Int) := by
    have : (i : Int) ≤ (j : Int) := Int.ofNat_le.mpr h
    omega
  have := monthStart_mono hij
  omega

/-! ## Data model

`Installment` mirrors the `installments` rows as read by the components
(`installment_number`, `amount`, `due_date`, `paid`, `paid_at`);
`due_date` is a civil-day number and `paid_at` a timestamp in minutes.
The SQL schema defaults `paid` to `false` and `paid_at` to null. -/

structure Installment where
  installment_number : Nat
  amount : ℚ
  due_date : Int
  paid : Bool
  paid_at : Option Int
deriving DecidableEq, Repr

inductive LoanStatus
  | on_time
  | overdue
  | paid_off
deriving DecidableEq, Repr

inductive ClientStatus
  | on_time
  | overdue
  | paid_off
  | no_loans
deriving DecidableEq, Repr

/-! ## LoanForm.tsx `onSubmit`: interest and schedule generation -/

/-- `const totalWithInterest = amount * (1 + interestRate / 100)`
(LoanForm.tsx line 138). -/
def totalWithInterest (amount interestRate : ℚ) : ℚ :=
  amount * (1 + interestRate / 100)

/-- The `Array.from({ length: installmentsCount }, (_, i) => ...)`
schedule of LoanForm.tsx lines 158–168.  The insert sets
`installment_number = i + 1`, `amount = parseFloat((total/count).toFixed(2))`
and `due_date = new Date(firstDueDate); setMonth(getMonth()+i)`;
`paid`/`paid_at` come from the table defaults `false` / null
(migration `20260129041844`). The first due date is year `fy`,
month `fm` (1-based), day `fd`. -/
def generateInstallments (total : ℚ) (count : Nat) (fy fm fd : Int) :
    List Installment :=
  (List.range count).map fun i =>
    { installment_number := i + 1
      amount := round2 (total / (count : ℚ))
      due_date := jsSetMonthAdd fy fm fd i
      paid := false
      paid_at := none }

/-! ## Status classification

Two `getLoanStatus` implementations exist in the repository.
`getLoanStatusLoansList` (LoansList.tsx lines 214–223) compares
`new Date(i.due_date) < today` where `today = new Date()` is the full
current timestamp and the date-only string parses as UTC midnight.
`getLoanStatusPart005` (unnamed/part_005 lines 340–353) normalizes
`today` to the local start of day and parses the due date with a
`T00:00:00` suffix, i.e. as local midnight. -/

/-- Minutes in a civil day. -/
def minutesPerDay : Int := 1440

/-- `new Date(s)` for a date-only string of civil day `d`: UTC midnight. -/
def parseUTCDate (d : Int) : Int := d * minutesPerDay

/-- `new Date(s + "T00:00:00")` for civil day `d` at timezone offset
`tz` minutes east of UTC: local midnight. -/
def parseLocalMidnight (tz d : Int) : Int := d * minutesPerDay - tz

/-- `today.setHours(0, 0, 0, 0)` applied to the timestamp `now`:
the preceding local midnight. -/
def startOfDayLocal (tz now : Int) : Int :=
  ((now + tz) / minutesPerDay) * minutesPerDay - tz

/-- The local civil day containing the timestamp `now`. -/
def localDay (tz now : Int) : Int := (now + tz) / minutesPerDay

/-- `getLoanStatus` of LoansList.tsx (lines 214–223): `paid_off` when all
installments are paid, else `overdue` when some unpaid installment has
`new Date(due_date) < new Date()` — a full-timestamp comparison. -/
def getLoanStatusLoansList (now : Int) (ins : List Installment) : LoanStatus :=
  if ins.all (fun i => i.paid) then .paid_off
  else if ins.any (fun i => !i.paid && decide (parseUTCDate i.due_date < now)) then
    .overdue
  else .on_time

/-- `getLoanStatus` of unnamed/part_005 (lines 340–353): `today` is
normalized to the local start of day and the due date parses as local
midnight, so an installment is overdue only when its due day lies
strictly before today. -/
def getLoanStatusPart005 (tz now : Int) (ins : List Installment) : LoanStatus :=
  let today := startOfDayLocal tz now
  if ins.all (fun i => i.paid) then .paid_off
  else if ins.any (fun i => !i.paid && decide (parseLocalMidnight tz i.due_date < today)) then
    .overdue
  else .on_time

/-- `getClientStatus` (LoansList.tsx lines 225–232 and unnamed/part_005
lines 355–362; both bodies are identical and close over the local
`getLoanStatus`, abstracted here as `rate`): `no_loans` for an empty loan
list, else `overdue` if some loan status is overdue, else `paid_off` if
all loan statuses are paid_off, else `on_time`. -/
def getClientStatus (rate : List Installment → LoanStatus)
    (loans : List (List Installment)) : ClientStatus :=
  if loans.length = 0 then .no_loans
  else
    let statuses := loans.map rate
    if statuses.any (fun s => decide (s = .overdue)) then .overdue
    else if statuses.all (fun s => decide (s = .paid_off)) then .paid_off
    else .on_time

/-! ## OverdueAlert.tsx: per-client overdue aggregation -/

/-- A row of the OverdueAlert query: an installment joined with its
owning client (identified by `clientId`). -/
structure OverdueEntry where
  clientId : Nat
  amount : ℚ
  due_date : Int
  paid : Bool
deriving DecidableEq, Repr

/-- Per-client aggregate produced by `clientsWithOverdue`:
`{ count, total }` (the `name`/`phone` display fields are omitted). -/
structure ClientAgg where
  count : Nat
  total : ℚ
deriving DecidableEq, Repr

/-- The OverdueAlert query filter `.eq("paid", false).lt("due_date", today)`. -/
def overdueRows (rows : List OverdueEntry) (today : Int) : List OverdueEntry :=
  rows.filter (fun r => !r.paid && decide (r.due_date < today))

/-- One step of the `reduce` in OverdueAlert.tsx lines 58–74: create the
client's accumulator on first sight, then `count++` and
`total += Number(installment.amount)`.  The accumulator object is an
insertion-ordered association list. -/
def bump : List (Nat × ClientAgg) → Nat → ℚ → List (Nat × ClientAgg)
  | [], cid, a => [(cid, ⟨1, a⟩)]
  | (k, g) :: rest, cid, a =>
      if k = cid then (k, ⟨g.count + 1, g.total + a⟩) :: rest
      else (k, g) :: bump rest cid a

/-- `clientsWithOverdue` of OverdueAlert.tsx: the reduce over the
query's overdue rows starting from the empty object. -/
def clientsWithOverdue (rows : List OverdueEntry) (today : Int) :
    List (Nat × ClientAgg) :=
  (overdueRows rows today).foldl (fun acc r => bump acc r.clientId r.amount) []

/-- Property access `acc[clientId]` on the accumulator object. -/
def lookupAgg : List (Nat × ClientAgg) → Nat → Option ClientAgg
  | [], _ => none
  | (k, g) :: rest, cid => if k = cid then some g else lookupAgg rest cid

/-! ## LoansList.tsx / part_005 `handlePayInstallment` -/

/-- A stored installment row including its primary key `id`. -/
structure InstallmentRow where
  id : Nat
  installment_number : Nat
  amount : ℚ
  due_date : Int
  paid : Bool
  paid_at : Option Int
deriving DecidableEq, Repr

/-- `handlePayInstallment` (LoansList.tsx lines 128–132, identically
unnamed/part_005 lines 254–258): the SQL
`UPDATE installments SET paid = true, paid_at = now WHERE id = iid`
applied to the stored list. -/
def payInstallment (db : List InstallmentRow) (iid : Nat) (now : Int) :
    List InstallmentRow :=
  db.map fun r =>
    if r.id = iid then { r with paid := true, paid_at := some now } else r

/-! ## Claim theorems -/

/-- C1 (code_bug evidence): with `firstDueDate = 2024-01-31` and
`count = 3`, the schedule generated by LoanForm.tsx puts installment 2
on 2024-03-02 — `setMonth` rolls the invalid Feb 31 into March instead
of clamping to 2024-02-29 — so February gets no installment and two
installments fall due in March.  The claim's required due date
2024-02-29 differs from what the code produces. -/
theorem c1_rollover_evaluation :
    (generateInstallments 100 3 2024 1 31).map (fun r => r.due_date) =
      [daysFromCivil 2024 1 31, daysFromCivil 2024 3 2, daysFromCivil 2024 3 31]
    ∧ daysFromCivil 2024 3 2 ≠ daysFromCivil 2024 2 29 := by
  decide

/-- C3: the two `getLoanStatus` call-site implementations are not
equivalent: for a single unpaid installment due on day 0 and the clock
at 10:00 local time of day 0 (UTC timezone, offset 0), LoansList.tsx
classifies the loan `overdue` (UTC midnight of due day < now) while the
part_005 variant classifies it `on_time` (due day is not before the
start of today). -/
theorem c3_call_sites_differ :
    ∃ (ins : List Installment) (now : Int),
      getLoanStatusLoansList now ins ≠ getLoanStatusPart005 0 now ins := by
  refine ⟨[⟨1, 50, 0, false, none⟩], 600, ?_⟩
  decide

theorem part005_overdue_cmp (tz now d : Int) :
    (parseLocalMidnight tz d < startOfDayLocal tz now) ↔ d < localDay tz now := by
  simp only [parseLocalMidnight, startOfDayLocal, localDay, minutesPerDay]
  omega

/-- C2: the part_005 `getLoanStatus` is `paid_off` iff every installment
is paid (vacuously so on the empty list); `overdue` iff some unpaid
installment's due day lies strictly before the local day of `now` (so an
unpaid installment due today never makes the loan overdue); `on_time`
iff some installment is unpaid and no unpaid one is due before today. -/
theorem c2_loan_status_classification (tz now : Int) (ins : List Installment) :
    (getLoanStatusPart005 tz now ins = LoanStatus.paid_off ↔
       ∀ i ∈ ins, i.paid = true)
    ∧ (getLoanStatusPart005 tz now ins = LoanStatus.overdue ↔
       ∃ i ∈ ins, i.paid = false ∧ i.due_date < localDay tz now)
    ∧ (getLoanStatusPart005 tz now ins = LoanStatus.on_time ↔
       (∃ i ∈ ins, i.paid = false) ∧
         ∀ i ∈ ins, i.paid = false → localDay tz now ≤ i.due_date) := by
  have hB : (ins.any (fun i =>
        !i.paid && decide (parseLocalMidnight tz i.due_date < startOfDayLocal tz now)) = true) ↔
      ∃ i ∈ ins, i.paid = false ∧ i.due_date < localDay tz now := by
    rw [List.any_eq_true]
    constructor
    · rintro ⟨i, hi, h⟩
      rw [Bool.and_eq_true, Bool.not_eq_true', decide_eq_true_eq,
        part005_overdue_cmp] at h
      exact ⟨i, hi, h.1, h.2⟩
    · rintro ⟨i, hi, hp, hd⟩
      refine ⟨i, hi, ?_⟩
      rw [Bool.and_eq_true, Bool.not_eq_true', decide_eq_true_eq,
        part005_overdue_cmp]
      exact ⟨hp, hd⟩
  have hA : (ins.all (fun i => i.paid) = true) ↔ ∀ i ∈ ins, i.paid = true :=
    List.all_eq_true
  simp only [getLoanStatusPart005]
  by_cases hall : ins.all (fun i => i.paid) = true
  · rw [if_pos hall]
    have h1 : ∀ i ∈ ins, i.paid = true := hA.mp hall
    refine ⟨⟨fun _ => h1, fun _ => rfl⟩, ?_, ?_⟩
    · constructor
      · intro h; exact LoanStatus.noConfusion h
      · rintro ⟨i, hi, hp, _⟩
        rw [h1 i hi] at hp
        exact Bool.noConfusion hp
    · constructor
      · intro h; exact LoanStatus.noConfusion h
      · rintro ⟨⟨i, hi, hp⟩, _⟩
        rw [h1 i hi] at hp
        exact Bool.noConfusion hp
  · rw [if_neg hall]
    have h0 : ¬ ∀ i ∈ ins, i.paid = true := fun h => hall (hA.mpr h)
    have hex : ∃ i ∈ ins, i.paid = false := by
      by_contra hc
      push_neg at hc
      refine h0 (fun i hi => ?_)
      cases hpi : i.paid
      · exact absurd hpi (hc i hi)
      · rfl
    by_cases hany : ins.any (fun i =>
        !i.paid && decide (parseLocalMidnight tz i.due_date < startOfDayLocal tz now)) = true
    · rw [if_pos hany]
      refine ⟨?_, ?_, ?_⟩
      · constructor
        · intro h; exact LoanStatus.noConfusion h
        · intro h; exact absurd h h0
      · exact ⟨fun _ => hB.mp hany, fun _ => rfl⟩
      · constructor
        · intro h; exact LoanStatus.noConfusion h
        · rintro ⟨_, hno⟩
          obtain ⟨i, hi, hp, hd⟩ := hB.mp hany
          exact absurd hd (not_lt.mpr (hno i hi hp))
    · rw [if_neg hany]
      refine ⟨?_, ?_, ?_⟩
      · constructor
        · intro h; exact LoanStatus.noConfusion h
        · intro h; exact absurd h h0
      · constructor
        · intro h; exact LoanStatus.noConfusion h
        · intro h; exact absurd (hB.mpr h) hany
      · refine ⟨fun _ => ⟨hex, ?_⟩, fun _ => rfl⟩
        intro i hi hp
        by_contra hlt
        push_neg at hlt
        exact hany (hB.mpr ⟨i, hi, hp, hlt⟩)

/-- C7: client classification — `no_loans` exactly on an empty loan
list; `overdue` exactly when some loan rates overdue (overdue
dominates); `paid_off` exactly when the list is non-empty and every loan
rates paid_off; `on_time` exactly in the remaining non-empty case. -/
theorem c7_client_status_classification (rate : List Installment → LoanStatus)
    (loans : List (List Installment)) :
    (getClientStatus rate loans = ClientStatus.no_loans ↔ loans = [])
    ∧ (getClientStatus rate loans = ClientStatus.overdue ↔
       loans ≠ [] ∧ ∃ l ∈ loans, rate l = LoanStatus.overdue)
    ∧ (getClientStatus rate loans = ClientStatus.paid_off ↔
       loans ≠ [] ∧ ∀ l ∈ loans, rate l = LoanStatus.paid_off)
    ∧ (getClientStatus rate loans = ClientStatus.on_time ↔
       loans ≠ [] ∧ (∀ l ∈ loans, rate l ≠ LoanStatus.overdue) ∧
         ¬ ∀ l ∈ loans, rate l = LoanStatus.paid_off) := by
  have hAny : ((loans.map rate).any (fun s => decide (s = LoanStatus.overdue)) = true) ↔
      ∃ l ∈ loans, rate l = LoanStatus.overdue := by
    rw [List.any_eq_true]
    constructor
    · rintro ⟨s, hs, h⟩
      rw [decide_eq_true_eq] at h
      rw [List.mem_map] at hs
      obtain ⟨l, hl, rfl⟩ := hs
      exact ⟨l, hl, h⟩
    · rintro ⟨l, hl, h⟩
      exact ⟨rate l, List.mem_map_of_mem _ hl, by rw [decide_eq_true_eq]; exact h⟩
  have hAll : ((loans.map rate).all (fun s => decide (s = LoanStatus.paid_off)) = true) ↔
      ∀ l ∈ loans, rate l = LoanStatus.paid_off := by
    rw [List.all_eq_true]
    constructor
    · intro h l hl
      have := h (rate l) (List.mem_map_of_mem _ hl)
      rwa [decide_eq_true_eq] at this
    · intro h s hs
      rw [List.mem_map] at hs
      obtain ⟨l, hl, rfl⟩ := hs
      rw [decide_eq_true_eq]
      exact h l hl
  by_cases hlen : loans.length = 0
  · have hnil : loans = [] := List.length_eq_zero.mp hlen
    subst hnil
    refine ⟨⟨fun _ => rfl, fun _ => rfl⟩, ?_, ?_, ?_⟩ <;>
      exact ⟨fun h => ClientStatus.noConfusion h, fun h => absurd rfl h.1⟩
  · have hne : loans ≠ [] := fun h => hlen (by rw [h]; rfl)
    simp only [getClientStatus, if_neg hlen]
    by_cases hany : (loans.map rate).any (fun s => decide (s = LoanStatus.overdue)) = true
    · rw [if_pos hany]
      refine ⟨⟨fun h => ClientStatus.noConfusion h, fun h => absurd h hne⟩,
        ⟨fun _ => ⟨hne, hAny.mp hany⟩, fun _ => rfl⟩, ?_, ?_⟩
      · refine ⟨fun h => ClientStatus.noConfusion h, fun h => ?_⟩
        obtain ⟨l, hl, ho⟩ := hAny.mp hany
        rw [h.2 l hl] at ho
        exact LoanStatus.noConfusion ho
      · refine ⟨fun h => ClientStatus.noConfusion h, fun h => ?_⟩
        obtain ⟨l, hl, ho⟩ := hAny.mp hany
        exact absurd ho (h.2.1 l hl)
    · rw [if_neg hany]
      by_cases hallp : (loans.map rate).all (fun s => decide (s = LoanStatus.paid_off)) = true
      · rw [if_pos hallp]
        refine ⟨⟨fun h => ClientStatus.noConfusion h, fun h => absurd h hne⟩, ?_,
          ⟨fun _ => ⟨hne, hAll.mp hallp⟩, fun _ => rfl⟩, ?_⟩
        · refine ⟨fun h => ClientStatus.noConfusion h, fun h => ?_⟩
          exact absurd (hAny.mpr h.2) hany
        · refine ⟨fun h => ClientStatus.noConfusion h, fun h => ?_⟩
          exact absurd (hAll.mp hallp) h.2.2
      · rw [if_neg hallp]
        refine ⟨⟨fun h => ClientStatus.noConfusion h, fun h => absurd h hne⟩, ?_, ?_, ?_⟩
        · refine ⟨fun h => ClientStatus.noConfusion h, fun h => ?_⟩
          exact absurd (hAny.mpr h.2) hany
        · refine ⟨fun h => ClientStatus.noConfusion h, fun h => ?_⟩
          exact absurd (hAll.mpr h.2) hallp
        · refine ⟨fun _ => ⟨hne, ?_, fun h => hallp (hAll.mpr h)⟩, fun _ => rfl⟩
          intro l hl ho
          exact hany (hAny.mpr ⟨l, hl, ho⟩)

/-- C6: the total payable computed by LoanForm.tsx equals
`p * (1 + r/100)` and never falls below the principal. -/
theorem c6_total_payable (p r : ℚ) (hp : 0 < p) (hr0 : 0 ≤ r) (hr1 : r ≤ 100) :
    totalWithInterest p r = p * (1 + r / 100) ∧ p ≤ totalWithInterest p r := by
  refine ⟨rfl, ?_⟩
  have h2 : (1 : ℚ) ≤ 1 + r / 100 := by linarith
  calc p = p * 1 := (mul_one p).symm
    _ ≤ p * (1 + r / 100) := mul_le_mul_of_nonneg_left h2 (le_of_lt hp)

theorem c6_total_payable_witness :
    totalWithInterest 200 10 = 200 * (1 + 10 / 100) ∧ (200 : ℚ) ≤ totalWithInterest 200 10 :=
  c6_total_payable 200 10 (by norm_num) (by norm_num) (by norm_num)

theorem generateInstallments_map_amount (total : ℚ) (count : Nat) (fy fm fd : Int) :
    (generateInstallments total count fy fm fd).map (fun r => r.amount) =
      List.replicate count (round2 (total / (count : ℚ))) := by
  simp only [generateInstallments, List.map_map]
  have hc : ((fun r : Installment => r.amount) ∘ fun i =>
      ({ installment_number := i + 1, amount := round2 (total / (count : ℚ)),
         due_date := jsSetMonthAdd fy fm fd i, paid := false,
         paid_at := none } : Installment)) =
      fun _ => round2 (total / (count : ℚ)) := rfl
  rw [hc, List.map_const', List.length_range]

/-- C10: every installment of one generated schedule carries the same
amount, `total/count` rounded to 2 fraction digits — in particular the
last installment receives no remainder adjustment. -/
theorem c10_uniform_amounts (total : ℚ) (fy fm fd : Int) (count : Nat)
    (h1 : 1 ≤ count) (h48 : count ≤ 48) :
    (generateInstallments total count fy fm fd).map (fun r => r.amount) =
      List.replicate count (round2 (total / (count : ℚ))) :=
  generateInstallments_map_amount total count fy fm fd

theorem c10_uniform_amounts_witness :
    (generateInstallments 100 3 2024 1 15).map (fun r => r.amount) =
      List.replicate 3 (round2 (100 / (3 : ℚ))) :=
  c10_uniform_amounts 100 2024 1 15 3 (by norm_num) (by norm_num)

theorem round2_close (x : ℚ) : |round2 x - x| ≤ 1 / 200 := by
  have habs : |(round (100 * x) : ℚ) - 100 * x| ≤ 1 / 2 := by
    have h := abs_sub_round (100 * x)
    rwa [abs_sub_comm] at h
  have hrw : round2 x - x = ((round (100 * x) : ℚ) - 100 * x) / 100 := by
    simp only [round2]
    ring
  rw [hrw, abs_div]
  rw [show |(100 : ℚ)| = 100 by norm_num]
  linarith

/-- C5: with each installment amount equal to `total/count` rounded to
2 fraction digits and no remainder redistribution, the generated
schedule's amount sum differs from `total` by at most `count * 0.01`. -/
theorem c5_rounding_drift (total : ℚ) (fy fm fd : Int) (count : Nat)
    (ht : 0 < total) (h1 : 1 ≤ count) (h48 : count ≤ 48) :
    |((generateInstallments total count fy fm fd).map (fun r => r.amount)).sum - total|
      ≤ (count : ℚ) * (1 / 100) := by
  rw [generateInstallments_map_amount, List.sum_replicate, nsmul_eq_mul]
  have hc1 : (1 : ℚ) ≤ (count : ℚ) := by exact_mod_cast h1
  have hc0 : (0 : ℚ) < (count : ℚ) := lt_of_lt_of_le one_pos hc1
  have htot : (count : ℚ) * (total / (count : ℚ)) = total := by
    field_simp
  have hdiff : (count : ℚ) * round2 (total / (count : ℚ)) - total =
      (count : ℚ) * (round2 (total / (count : ℚ)) - total / (count : ℚ)) := by
    rw [mul_sub, htot]
  rw [hdiff, abs_mul, abs_of_pos hc0]
  have hr := round2_close (total / (count : ℚ))
  calc (count : ℚ) * |round2 (total / (count : ℚ)) - total / (count : ℚ)|
      ≤ (count : ℚ) * (1 / 200) := mul_le_mul_of_nonneg_left hr (le_of_lt hc0)
    _ ≤ (count : ℚ) * (1 / 100) := by nlinarith

theorem c5_rounding_drift_witness :
    |((generateInstallments 101 2 2024 1 15).map (fun r => r.amount)).sum - 101|
      ≤ ((2 : Nat) : ℚ) * (1 / 100) :=
  c5_rounding_drift 101 2024 1 15 2 (by norm_num) (by norm_num) (by norm_num)

/-- C4: for any total, first due date and `count ∈ [1,48]` the generated
schedule has exactly `count` installments, numbered 1..count in order
with no gaps, each created unpaid with a null `paid_at`, and with due
dates non-decreasing in the installment number. -/
theorem c4_schedule_invariants (total : ℚ) (fy fm fd : Int) (count : Nat)
    (h1 : 1 ≤ count) (h48 : count ≤ 48) :
    (generateInstallments total count fy fm fd).length = count
    ∧ (generateInstallments total count fy fm fd).map (fun r => r.installment_number) =
        (List.range count).map (fun i => i + 1)
    ∧ (∀ r ∈ generateInstallments total count fy fm fd,
        r.paid = false ∧ r.paid_at = none)
    ∧ ((generateInstallments total count fy fm fd).map (fun r => r.due_date)).Pairwise
        (fun a b => a ≤ b) := by
  refine ⟨?_, ?_, ?_, ?_⟩
  · simp [generateInstallments]
  · simp only [generateInstallments, List.map_map]
    rfl
  · intro r hr
    simp only [generateInstallments, List.mem_map] at hr
    obtain ⟨i, _, rfl⟩ := hr
    exact ⟨rfl, rfl⟩
  · simp only [generateInstallments, List.map_map]
    exact (List.pairwise_lt_range count).map _
      (fun a b hab => jsSetMonthAdd_mono fy fm fd (Nat.le_of_lt hab))

theorem c4_schedule_invariants_witness :
    (generateInstallments 100 3 2024 1 31).length = 3
    ∧ (generateInstallments 100 3 2024 1 31).map (fun r => r.installment_number) =
        (List.range 3).map (fun i => i + 1)
    ∧ (∀ r ∈ generateInstallments 100 3 2024 1 31,
        r.paid = false ∧ r.paid_at = none)
    ∧ ((generateInstallments 100 3 2024 1 31).map (fun r => r.due_date)).Pairwise
        (fun a b => a ≤ b) :=
  c4_schedule_invariants 100 2024 1 31 3 (by norm_num) (by norm_num)

/-- C9: `handlePayInstallment` flips `paid` to true and stamps `paid_at`
on the targeted row only; the row's `id`, `installment_number`, `amount`
and `due_date` are untouched, every other row is entirely unchanged, and
the list keeps its length and order (positions are compared via `[k]?`). -/
theorem c9_pay_installment_frame (db : List InstallmentRow) (iid : Nat)
    (now : Int) (k : Nat) :
    ((payInstallment db iid now)[k]?.map (fun r => r.id) =
      db[k]?.map (fun r => r.id))
    ∧ ((payInstallment db iid now)[k]?.map (fun r => r.installment_number) =
      db[k]?.map (fun r => r.installment_number))
    ∧ ((payInstallment db iid now)[k]?.map (fun r => r.amount) =
      db[k]?.map (fun r => r.amount))
    ∧ ((payInstallment db iid now)[k]?.map (fun r => r.due_date) =
      db[k]?.map (fun r => r.due_date))
    ∧ (∀ r, db[k]? = some r → r.id = iid →
        (payInstallment db iid now)[k]? =
          some { r with paid := true, paid_at := some now })
    ∧ (∀ r, db[k]? = some r → r.id ≠ iid →
        (payInstallment db iid now)[k]? = some r) := by
  simp only [payInstallment, List.getElem?_map]
  cases h : db[k]? with
  | none => simp
  | some r =>
      simp only [Option.map_some']
      by_cases hid : r.id = iid
      · refine ⟨by simp [hid], by simp [hid], by simp [hid], by simp [hid], ?_, ?_⟩
        · intro r2 hr2 _
          rw [Option.some.injEq] at hr2
          subst hr2
          simp [hid]
        · intro r2 hr2 hne
          rw [Option.some.injEq] at hr2
          subst hr2
          exact absurd hid hne
      · refine ⟨by simp [hid], by simp [hid], by simp [hid], by simp [hid], ?_, ?_⟩
        · intro r2 hr2 heq
          rw [Option.some.injEq] at hr2
          subst hr2
          exact absurd heq hid
        · intro r2 hr2 _
          rw [Option.some.injEq] at hr2
          subst hr2
          simp [hid]

theorem c9_pay_installment_frame_witness :
    (payInstallment [⟨7, 1, 50, 0, false, none⟩] 7 600)[0]? =
      some ⟨7, 1, 50, 0, true, some 600⟩ :=
  (c9_pay_installment_frame [⟨7, 1, 50, 0, false, none⟩] 7 600 0).2.2.2.2.1
    ⟨7, 1, 50, 0, false, none⟩ rfl rfl

/-- Reference count: how many of the rows belong to client `cid`. -/
def aggCount (l : List OverdueEntry) (cid : Nat) : Nat :=
  (l.filter (fun r => decide (r.clientId = cid))).length

/-- Reference total: exact sum of the amounts of client `cid`'s rows. -/
def aggTotal (l : List OverdueEntry) (cid : Nat) : ℚ :=
  ((l.filter (fun r => decide (r.clientId = cid))).map (fun r => r.amount)).sum

theorem lookupAgg_bump (acc : List (Nat × ClientAgg)) (k cid : Nat) (a : ℚ) :
    lookupAgg (bump acc k a) cid =
      if k = cid then
        some (match lookupAgg acc cid with
              | none => ⟨1, a⟩
              | some g => ⟨g.count + 1, g.total + a⟩)
      else lookupAgg acc cid := by
  induction acc with
  | nil =>
      simp [bump, lookupAgg]
  | cons p rest ih =>
      obtain ⟨k2, g⟩ := p
      simp only [bump]
      by_cases h1 : k2 = k
      · subst h1
        rw [if_pos rfl]
        simp only [lookupAgg]
        by_cases h2 : k2 = cid
        · subst h2
          simp
        · simp [h2]
      · rw [if_neg h1]
        simp only [lookupAgg]
        by_cases h2 : k2 = cid
        · subst h2
          have hk : ¬ k = k2 := fun hh => h1 hh.symm
          simp [hk]
        · simp only [if_neg h2]
          exact ih

theorem foldl_bump_lookup_some (l : List OverdueEntry) :
    ∀ (acc : List (Nat × ClientAgg)) (cid : Nat) (g : ClientAgg),
      lookupAgg acc cid = some g →
      lookupAgg (l.foldl (fun acc r => bump acc r.clientId r.amount) acc) cid =
        some ⟨g.count + aggCount l cid, g.total + aggTotal l cid⟩ := by
  induction l with
  | nil =>
      intro acc cid g h
      simp [aggCount, aggTotal, h]
  | cons r t ih =>
      intro acc cid g h
      simp only [List.foldl_cons]
      by_cases hcr : r.clientId = cid
      · have hb : lookupAgg (bump acc r.clientId r.amount) cid =
            some ⟨g.count + 1, g.total + r.amount⟩ := by
          rw [lookupAgg_bump, if_pos hcr, h]
        rw [ih _ cid _ hb]
        have hfc : aggCount (r :: t) cid = 1 + aggCount t cid := by
          simp [aggCount, List.filter_cons, hcr]
          omega
        have hft : aggTotal (r :: t) cid = r.amount + aggTotal t cid := by
          simp [aggTotal, List.filter_cons, hcr]
        rw [hfc, hft]
        have hna : g.count + 1 + aggCount t cid = g.count + (1 + aggCount t cid) := by
          omega
        have hqa : g.total + r.amount + aggTotal t cid =
            g.total + (r.amount + aggTotal t cid) := by ring
        rw [hna, hqa]
      · have hb : lookupAgg (bump acc r.clientId r.amount) cid = some g := by
          rw [lookupAgg_bump, if_neg hcr]
          exact h
        rw [ih _ cid _ hb]
        have hfc : aggCount (r :: t) cid = aggCount t cid := by
          simp [aggCount, List.filter_cons, hcr]
        have hft : aggTotal (r :: t) cid = aggTotal t cid := by
          simp [aggTotal, List.filter_cons, hcr]
        rw [hfc, hft]

theorem foldl_bump_lookup_none (l : List OverdueEntry) :
    ∀ (acc : List (Nat × ClientAgg)) (cid : Nat),
      lookupAgg acc cid = none →
      lookupAgg (l.foldl (fun acc r => bump acc r.clientId r.amount) acc) cid =
        if aggCount l cid = 0 then none
        else some ⟨aggCount l cid, aggTotal l cid⟩ := by
  induction l with
  | nil =>
      intro acc cid h
      simp [aggCount, aggTotal, h]
  | cons r t ih =>
      intro acc cid h
      simp only [List.foldl_cons]
      by_cases hcr : r.clientId = cid
      · have hb : lookupAgg (bump acc r.clientId r.amount) cid =
            some ⟨1, r.amount⟩ := by
          rw [lookupAgg_bump, if_pos hcr, h]
        rw [foldl_bump_lookup_some t _ cid _ hb]
        have hfc : aggCount (r :: t) cid = 1 + aggCount t cid := by
          simp [aggCount, List.filter_cons, hcr]
          omega
        have hft : aggTotal (r :: t) cid = r.amount + aggTotal t cid := by
          simp [aggTotal, List.filter_cons, hcr]
        rw [hfc, hft, if_neg (by omega)]
      · have hb : lookupAgg (bump acc r.clientId r.amount) cid = none := by
          rw [lookupAgg_bump, if_neg hcr]
          exact h
        rw [ih _ cid hb]
        have hfc : aggCount (r :: t) cid = aggCount t cid := by
          simp [aggCount, List.filter_cons, hcr]
        have hft : aggTotal (r :: t) cid = aggTotal t cid := by
          simp [aggTotal, List.filter_cons, hcr]
        rw [hfc, hft]

/-- C8: the OverdueAlert aggregation, applied to the unpaid installments
due strictly before `today`, yields for every client id exactly that
client's number of overdue rows and the exact sum of their amounts
(and no entry at all for a client with none). -/
theorem c8_overdue_aggregation (rows : List OverdueEntry) (today : Int) (cid : Nat) :
    lookupAgg (clientsWithOverdue rows today) cid =
      if aggCount (overdueRows rows today) cid = 0 then none
      else some ⟨aggCount (overdueRows rows today) cid,
                 aggTotal (overdueRows rows today) cid⟩ :=
  foldl_bump_lookup_none (overdueRows rows today) [] cid rfl

theorem c8_overdue_aggregation_witness :
    lookupAgg (clientsWithOverdue
        [⟨1, 50, -1, false⟩, ⟨1, 50, -2, false⟩, ⟨2, 30, -1, false⟩] 0) 1 =
      some ⟨2, 100⟩
    ∧ lookupAgg (clientsWithOverdue
        [⟨1, 50, -1, false⟩, ⟨1, 50, -2, false⟩, ⟨2, 30, -1, false⟩] 0) 2 =
      some ⟨1, 30⟩ :=
  by
  constructor
  · rw [c8_overdue_aggregation]
    norm_num [aggCount, aggTotal, overdueRows]
  · rw [c8_overdue_aggregation]
    norm_num [aggCount, aggTotal, overdueRows]

theorem c2_loan_status_classification_witness :
    (∃ i ∈ ([⟨1, 50, 0, false, none⟩] : List Installment), i.paid = false)
    ∧ ∀ i ∈ ([⟨1, 50, 0, false, none⟩] : List Installment),
        i.paid = false → localDay 0 600 ≤ i.due_date :=
  (c2_loan_status_classification 0 600 [⟨1, 50, 0, false, none⟩]).2.2.mp (by decide)

theorem c7_client_status_classification_witness :
    ([[⟨1, 50, 0, false, none⟩], [⟨1, 50, 0, true, some 0⟩]] :
        List (List Installment)) ≠ []
    ∧ ∃ l ∈ ([[⟨1, 50, 0, false, none⟩], [⟨1, 50, 0, true, some 0⟩]] :
        List (List Installment)),
        getLoanStatusPart005 0 14400 l = LoanStatus.overdue :=
  (c7_client_status_classification (getLoanStatusPart005 0 14400)
    [[⟨1, 50, 0, false, none⟩], [⟨1, 50, 0, true, some 0⟩]]).2.1.mp (by decide)
